import Mathlib

set_option maxRecDepth 100000

/-!
# RootDetectorNDK: `SecureRootCheck.cpp`

A shallow embedding of the six root detectors and of their aggregator
`isDeviceRooted`, followed by the properties proved about them.

The operating system is an explicit, read-only `SystemState`: the answers of
`access`, `stat`, the property store, `fopen` and `popen`.  Every embedded
function returns a `Run`: the C++ return value together with the list of
operating-system calls it performed, in order.  The functions that contain a
`while (fgets(...))` loop run it with a bound on the number of iterations and
return an `Option`; they are proved to return `some` on every state.

C strings are lists of characters.  A `char` buffer is a list whose meaningful
part ends before the first NUL (`cstr`).
-/

namespace RootDetector

/-! ## C strings -/

/-- The terminating NUL character of a C string. -/
def NUL : Char := Char.ofNat 0

/-- The C string held in a buffer: the characters before the first NUL. -/
def cstr : List Char → List Char
  | [] => []
  | c :: cs => if c = NUL then [] else c :: cstr cs

/-- Storing the string `s` and its terminator at the start of `buf`; the bytes
of `buf` after the terminator keep their old contents. -/
def writeCStr (buf s : List Char) : List Char :=
  s ++ NUL :: buf.drop (s.length + 1)

/-- Search of `needle` in an unterminated text: the suffix of the text that
starts at the first occurrence. -/
def strstrFrom (needle : List Char) : List Char → Option (List Char)
  | [] => if needle = [] then some [] else none
  | c :: hs =>
    if needle.isPrefixOf (c :: hs) then some (c :: hs) else strstrFrom needle hs

/-- `std::strstr`: the part of `haystack` starting at the first occurrence of
`needle`, or `none` for the null pointer. -/
def strstr (haystack needle : List Char) : Option (List Char) :=
  strstrFrom (cstr needle) (cstr haystack)

/-- Byte-wise comparison of two unterminated texts, the end of a text
comparing as the terminator (value 0). -/
def strcmpFrom : List Char → List Char → Int
  | [], [] => 0
  | [], b :: _ => 0 - (b.toNat : Int)
  | a :: _, [] => (a.toNat : Int)
  | a :: as, b :: bs =>
    if a = b then strcmpFrom as bs else (a.toNat : Int) - (b.toNat : Int)

/-- `std::strcmp`: zero exactly for equal C strings. -/
def strcmp (s1 s2 : List Char) : Int :=
  strcmpFrom (cstr s1) (cstr s2)

/-! ## The operating system -/

/-- An open stream (`FILE*`): the bytes that can still be read, and whether the
read that follows them fails with an error (`true`) or reports end of file. -/
structure FILE where
  data : List Char
  fails : Bool
deriving DecidableEq, Repr

/-- The state of the device as seen through the system calls the detectors make. -/
structure SystemState where
  /-- Return value of `access(path, F_OK)`. -/
  access : String → Int
  /-- Return value of `stat(path, &st)`. -/
  stat : String → Int
  /-- The property store: the value of a property, if it is set. -/
  property : String → Option (List Char)
  /-- Contents of a local `char` array before it is first written. -/
  uninit : String → List Char
  /-- Result of `fopen(path, "r")`: `none` is the null pointer. -/
  fopen : String → Option FILE
  /-- Result of `popen(command, "r")`: the output of the command, `none` when
  the launch fails. -/
  popen : List Char → Option FILE

/-- The operating-system calls a detector performs. -/
inductive Event where
  | access (path : String)
  | stat (path : String)
  | system_property_get (name : String)
  | fopen (path : String)
  | fgets
  | fclose
  | popen (command : List Char)
  | pclose
deriving DecidableEq, Repr

/-- The outcome of running a function: its return value and the calls it made. -/
structure Run where
  ret : Bool
  calls : List Event
deriving DecidableEq, Repr

/-- `PROP_VALUE_MAX` of `<sys/system_properties.h>`. -/
def PROP_VALUE_MAX : Nat := 92

/-- Modelled from the spec: the platform call `__system_property_get(name, value)`,
which is not part of this repository.  It stores the value of a set property and
its terminator in the buffer and returns the length; an unset property yields
the empty string and length 0 (section 9 of the specification: treat unset as
empty string). -/
def system_property_get (st : SystemState) (name : String) (value : List Char) :
    Int × List Char :=
  match st.property name with
  | some v => ((v.length : Int), writeCStr value v)
  | none => (0, writeCStr value [])

/-- A property value as the platform stores it: no NUL inside, and shorter
than the property buffer. -/
def validProp : Option (List Char) → Bool
  | none => true
  | some v => !v.contains NUL && decide (v.length < PROP_VALUE_MAX)

/-! ## Detectors 1 and 2: path scans -/

/-- The array `suPaths` of `checkSuBinary`. -/
def suPaths : List String :=
  [ "/data/local/bin/su",
    "/data/local/su",
    "/sbin/su",
    "/system/bin/su",
    "/system/bin/.ext/su",
    "/system/xbin/su",
    "/system/xbin/mu",
    "/system/xbin/ku",
    "/system/sd/xbin/su",
    "/system/usr/we-need-root/su",
    "/vendor/bin/su",
    "/su/bin/su",
    "/magisk/.core/bin/su" ]

/-- The `for` loop of `checkSuBinary` over the paths still to be probed. -/
def checkSuBinaryLoop (st : SystemState) : List String → Run
  | [] => ⟨false, []⟩
  | path :: rest =>
    if st.access path = 0 then ⟨true, [Event.access path]⟩
    else
      let r := checkSuBinaryLoop st rest
      ⟨r.ret, Event.access path :: r.calls⟩

/-- `checkSuBinary()`. -/
def checkSuBinary (st : SystemState) : Run :=
  checkSuBinaryLoop st suPaths

/-- The array `magiskPaths` of `checkMagiskFiles`. -/
def magiskPaths : List String :=
  [ "/sbin/.magisk",
    "/dev/magisk",
    "/dev/.magisk.unblock",
    "/data/adb/magisk",
    "/cache/.disable_magisk",
    "/data/adb/ksu",
    "/data/adb/ap",
    "/data/adb/apd" ]

/-- The `for` loop of `checkMagiskFiles` over the paths still to be probed. -/
def checkMagiskFilesLoop (st : SystemState) : List String → Run
  | [] => ⟨false, []⟩
  | path :: rest =>
    if st.stat path = 0 then ⟨true, [Event.stat path]⟩
    else
      let r := checkMagiskFilesLoop st rest
      ⟨r.ret, Event.stat path :: r.calls⟩

/-- `checkMagiskFiles()`. -/
def checkMagiskFiles (st : SystemState) : Run :=
  checkMagiskFilesLoop st magiskPaths

/-! ## Detectors 3 and 4: system properties -/

/-- `checkBuildTags()`. -/
def checkBuildTags (st : SystemState) : Run :=
  let build_tags := st.uninit "build_tags"
  let build_tags := (system_property_get st "ro.build.tags" build_tags).2
  ⟨(strstr build_tags "test-keys".toList).isSome,
   [Event.system_property_get "ro.build.tags"]⟩

/-- `checkSystemProperties()`. -/
def checkSystemProperties (st : SystemState) : Run :=
  let debuggable := st.uninit "debuggable"
  let secure := st.uninit "secure"
  let debuggable := (system_property_get st "ro.debuggable" debuggable).2
  let secure := (system_property_get st "ro.secure" secure).2
  ⟨decide (strcmp debuggable "1".toList = 0) || decide (strcmp secure "0".toList = 0),
   [Event.system_property_get "ro.debuggable", Event.system_property_get "ro.secure"]⟩

/-! ## Reading a stream line by line -/

/-- The bytes one `fgets` call takes from the stream: at most `k` of them,
stopping after a newline.  The result is the bytes taken, the bytes left, and
whether the end of the data was reached while more bytes were still wanted. -/
def fgetsRead : Nat → List Char → List Char × List Char × Bool
  | 0, s => ([], s, false)
  | _ + 1, [] => ([], [], true)
  | k + 1, c :: s =>
    if c = '\n' then ([c], s, false)
    else
      let r := fgetsRead k s
      (c :: r.1, r.2.1, r.2.2)

/-- `std::fgets(str, count, stream)`: reads at most `count - 1` bytes, up to and
including a newline, and terminates them in `str`.  The null pointer (`none`)
is returned at end of file when nothing was read, and on a read error. -/
def fgets (str : List Char) (count : Nat) (stream : FILE) : Option (List Char × FILE) :=
  let r := fgetsRead (count - 1) stream.data
  if r.2.2 && (stream.fails || r.1.isEmpty) then none
  else some (writeCStr str r.1, { stream with data := r.2.1 })

/-- The loop `while (fgets(buf, count, fp)) { if (found buf) { close(fp); return true; } }`
shared by `checkRootCloaking` and `checkPackage`.  The result is `true` when
the body returned from the enclosing function (after closing the stream) and
`false` when the loop ran to its end.  The first argument bounds the number of
iterations; `none` means the bound was too small. -/
def fgetsLoop (count : Nat) (found : List Char → Bool) (close : Event) :
    Nat → List Char → FILE → Option Run
  | 0, _, _ => none
  | fuel + 1, buf, fp =>
    match fgets buf count fp with
    | none => some ⟨false, [Event.fgets]⟩
    | some (buf', fp') =>
      if found buf' then some ⟨true, [Event.fgets, close]⟩
      else
        match fgetsLoop count found close fuel buf' fp' with
        | none => none
        | some r => some ⟨r.ret, Event.fgets :: r.calls⟩

/-! ## Detector 5: the mount table -/

/-- The test of one line in `checkRootCloaking`. -/
def cloakingMarker (line : List Char) : Bool :=
  (strstr line "magisk".toList).isSome ||
  (strstr line "core/mirror".toList).isSome ||
  (strstr line "KSU".toList).isSome

/-- `checkRootCloaking()`.  Every successful `fgets` consumes at least one
byte, so the loop is given one iteration more than there are bytes. -/
def checkRootCloaking (st : SystemState) : Option Run :=
  match st.fopen "/proc/self/mounts" with
  | some mounts =>
    match fgetsLoop 1024 cloakingMarker Event.fclose (mounts.data.length + 1)
        (st.uninit "line") mounts with
    | none => none
    | some r =>
      if r.ret then some ⟨true, Event.fopen "/proc/self/mounts" :: r.calls⟩
      else some ⟨false, Event.fopen "/proc/self/mounts" :: (r.calls ++ [Event.fclose])⟩
  | none => some ⟨false, [Event.fopen "/proc/self/mounts"]⟩

/-! ## Detector 6: installed packages -/

/-- The command `std::snprintf(command, sizeof(command), "pm path %s", package)`
leaves in the 256-byte array `command`: the formatted text cut to 255 bytes. -/
def pmPathCommand (command package : List Char) : List Char :=
  writeCStr command (("pm path ".toList ++ cstr package).take 255)

/-- The test of one line of output in `checkPackage`. -/
def packageMarker (output : List Char) : Bool :=
  (strstr output "package:".toList).isSome

/-- `checkPackage(package)`. -/
def checkPackage (st : SystemState) (package : List Char) : Option Run :=
  let command := pmPathCommand (st.uninit "command") package
  match st.popen (cstr command) with
  | some fp =>
    match fgetsLoop 256 packageMarker Event.pclose (fp.data.length + 1)
        (st.uninit "output") fp with
    | none => none
    | some r =>
      if r.ret then some ⟨true, Event.popen (cstr command) :: r.calls⟩
      else some ⟨false, Event.popen (cstr command) :: (r.calls ++ [Event.pclose])⟩
  | none => some ⟨false, [Event.popen (cstr command)]⟩

/-- The array `rootApps` of `checkRootApps`. -/
def rootApps : List (List Char) :=
  [ "com.topjohnwu.magisk".toList,
    "com.kingroot.kinguser".toList,
    "com.kingo.root".toList,
    "me.weishu.kernelsu".toList,
    "me.weishu.superuser".toList,
    "eu.chainfire.supersu".toList ]

/-- The `for` loop of `checkRootApps` over the identifiers still to be queried. -/
def checkRootAppsLoop (st : SystemState) : List (List Char) → Option Run
  | [] => some ⟨false, []⟩
  | app :: rest =>
    match checkPackage st app with
    | none => none
    | some p =>
      if p.ret then some ⟨true, p.calls⟩
      else
        match checkRootAppsLoop st rest with
        | none => none
        | some r => some ⟨r.ret, p.calls ++ r.calls⟩

/-- `checkRootApps()`. -/
def checkRootApps (st : SystemState) : Option Run :=
  checkRootAppsLoop st rootApps

/-! ## The aggregator -/

/-- The six detectors, named as in the source. -/
inductive Detector where
  | checkSuBinary
  | checkMagiskFiles
  | checkBuildTags
  | checkSystemProperties
  | checkRootCloaking
  | checkRootApps
deriving DecidableEq, Repr

/-- The outcome of `isDeviceRooted`: the verdict, and the detectors that were
called, in order, each with the calls it made. -/
structure Verdict where
  ret : Bool
  evaluated : List (Detector × List Event)
deriving DecidableEq, Repr

/-- The operator `lhs || d()` of C++: the call of detector `d`, whose outcome
is `rhs`, takes place only when `lhs` is false. -/
def shortCircuitOr (lhs : Option Verdict) (d : Detector) (rhs : Option Run) :
    Option Verdict :=
  match lhs with
  | none => none
  | some l =>
    if l.ret then some l
    else
      match rhs with
      | none => none
      | some r => some ⟨r.ret, l.evaluated ++ [(d, r.calls)]⟩

/-- The first operand of a chain of `||`: the call of detector `d`. -/
def firstOperand (d : Detector) (run : Option Run) : Option Verdict :=
  match run with
  | none => none
  | some r => some ⟨r.ret, [(d, r.calls)]⟩

/-- `isDeviceRooted()`: the left-associated chain of `||` over the six calls. -/
def isDeviceRooted (st : SystemState) : Option Verdict :=
  shortCircuitOr
    (shortCircuitOr
      (shortCircuitOr
        (shortCircuitOr
          (shortCircuitOr
            (firstOperand Detector.checkSuBinary (some (checkSuBinary st)))
            Detector.checkMagiskFiles (some (checkMagiskFiles st)))
          Detector.checkBuildTags (some (checkBuildTags st)))
        Detector.checkSystemProperties (some (checkSystemProperties st)))
      Detector.checkRootCloaking (checkRootCloaking st))
    Detector.checkRootApps (checkRootApps st)

/-- The order in which `isDeviceRooted` names the detectors. -/
def detectorOrder : List Detector :=
  [ Detector.checkSuBinary, Detector.checkMagiskFiles, Detector.checkBuildTags,
    Detector.checkSystemProperties, Detector.checkRootCloaking, Detector.checkRootApps ]

/-- The run of a detector on a state (`none`: no result). -/
def Detector.run (st : SystemState) : Detector → Option Run
  | Detector.checkSuBinary => some (RootDetector.checkSuBinary st)
  | Detector.checkMagiskFiles => some (RootDetector.checkMagiskFiles st)
  | Detector.checkBuildTags => some (RootDetector.checkBuildTags st)
  | Detector.checkSystemProperties => some (RootDetector.checkSystemProperties st)
  | Detector.checkRootCloaking => RootDetector.checkRootCloaking st
  | Detector.checkRootApps => RootDetector.checkRootApps st

/-- The value a detector returns on a state. -/
def Detector.result (st : SystemState) (d : Detector) : Option Bool :=
  (d.run st).map Run.ret

/-- The detectors that come before `d` in the order of `isDeviceRooted`. -/
def Detector.before (d : Detector) : List Detector :=
  detectorOrder.takeWhile fun e => decide (e ≠ d)

/-! ## Mount tables and command output as text lines -/

/-- The bytes of a text made of the given lines, each ended by a newline. -/
def tableText : List (List Char) → List Char
  | [] => []
  | l :: ls => l ++ '\n' :: tableText ls

/-- Piece number `i` of a line and its newline when the line is cut into
consecutive pieces of `cap` characters. -/
def piece (cap : Nat) (l : List Char) (i : Nat) : List Char :=
  ((l ++ ['\n']).drop (i * cap)).take cap

/-- A text containing one of the three mount markers. -/
def hasCloakingMarker (t : List Char) : Prop :=
  "magisk".toList <:+: t ∨ "core/mirror".toList <:+: t ∨ "KSU".toList <:+: t

/-- A text containing the marker of an installed package. -/
def hasPackageMarker (t : List Char) : Prop :=
  "package:".toList <:+: t

/-- The command of a `popen` call; `none` for the other calls. -/
def Event.command? : Event → Option (List Char)
  | Event.popen command => some command
  | _ => none

/-- The commands passed to `popen` by a sequence of calls, in order. -/
def popenCommands (calls : List Event) : List (List Char) :=
  calls.filterMap Event.command?

/-- The text `pm path <identifier>`. -/
def pmPath (app : List Char) : List Char :=
  "pm path ".toList ++ app

/-- An output, given as text lines, in which `checkPackage` finds the marker:
some piece of some line, as read into the 256-byte buffer, contains
`package:`.  A launch failure (`none`) is never positive. -/
def positiveOutput (o : Option (List (List Char))) : Prop :=
  ∃ ls, o = some ls ∧ ∃ l ∈ ls, ∃ i, hasPackageMarker (piece 255 l i)

/-- Characters a POSIX shell gives a meaning of their own: operators,
expansion and globbing characters, blanks, quotes and the backslash
(codes 96, 39, 34 and 92 are the backquote, the two quotes and the backslash). -/
def shellMetacharacters : List Char :=
  ";|&$<>()*?[]#~!= \t\n".toList ++
    [Char.ofNat 96, Char.ofNat 39, Char.ofNat 34, Char.ofNat 92, Char.ofNat 123, Char.ofNat 125]

/-- Whether the shell treats the character specially. -/
def shellMeta (c : Char) : Bool :=
  shellMetacharacters.contains c

/-- The characters with which a command line can escape or quote another
character: the backslash and the two quotes. -/
def shellEscapes : List Char :=
  [Char.ofNat 92, Char.ofNat 39, Char.ofNat 34]

/-! ## Test states -/

/-- The mount table of the clean test device. -/
def cleanMounts : List (List Char) :=
  [ "/dev/root / ext4 ro,seclabel,relatime 0 0".toList,
    "proc /proc proc rw,relatime 0 0".toList ]

/-- A clean device: nothing exists, release keys, `ro.debuggable=0`,
`ro.secure=1`, an ordinary mount table, no root package installed. -/
def cleanDevice : SystemState where
  access := fun _ => -1
  stat := fun _ => -1
  property := fun name =>
    if name = "ro.build.tags" then some "release-keys".toList
    else if name = "ro.debuggable" then some "0".toList
    else if name = "ro.secure" then some "1".toList
    else none
  uninit := fun _ => []
  fopen := fun path =>
    if path = "/proc/self/mounts" then some ⟨tableText cleanMounts, false⟩ else none
  popen := fun _ => some ⟨[], false⟩

/-- The clean device with `/system/bin/su` present. -/
def suDevice : SystemState :=
  { cleanDevice with access := fun path => if path = "/system/bin/su" then 0 else -1 }

/-- The clean device with the given mount table. -/
def mountsDevice (lines : List (List Char)) : SystemState :=
  { cleanDevice with
    fopen := fun path =>
      if path = "/proc/self/mounts" then some ⟨tableText lines, false⟩ else none }

/-- The clean device with a package manager whose answer to the query for an
identifier is `out` of that identifier: `none` for a launch failure, else the
lines of the output. -/
def queryDevice (out : List Char → Option (List (List Char))) : SystemState :=
  { cleanDevice with
    popen := fun command =>
      match out (command.drop 8) with
      | none => none
      | some ls => some ⟨tableText ls, false⟩ }

/-- A package manager that fails to launch for the first identifier, reports
the third identifier as installed and prints nothing for the others. -/
def thirdInstalled (app : List Char) : Option (List (List Char)) :=
  if app = "com.topjohnwu.magisk".toList then none
  else if app = "com.kingo.root".toList then
    some ["package:/data/app/com.kingo.root-1/base.apk".toList]
  else some []

/-- A package manager whose output for the first identifier is one line with
`package:` at characters 251 to 258, across the 255-character limit of one
read, and which prints nothing for the others. -/
def straddlingOutput (app : List Char) : Option (List (List Char)) :=
  if app = "com.topjohnwu.magisk".toList then
    some [List.replicate 250 'a' ++ "package:/data/app/base.apk".toList]
  else some []

/-- A line of 1020 filler characters followed by the marker `magisk`, which
then lies across the 1023-character limit of one read. -/
def straddlingLine : List Char :=
  List.replicate 1020 'a' ++ "magisk".toList

/-- A line of 1023 filler characters followed by the marker `magisk`, which
then lies wholly beyond the first 1023 characters. -/
def overlongLine : List Char :=
  List.replicate 1023 'a' ++ "magisk".toList

/-! ## C strings: basic facts -/

theorem cstr_eq_self {s : List Char} (h : NUL ∉ s) : cstr s = s := by
  induction s with
  | nil => rfl
  | cons c cs ih =>
    simp only [List.mem_cons, not_or] at h
    have hc : c ≠ NUL := fun e => h.1 e.symm
    simp [cstr, hc, ih h.2]

theorem cstr_append_NUL (s r : List Char) : cstr (s ++ NUL :: r) = cstr s := by
  induction s with
  | nil => simp [cstr]
  | cons c cs ih =>
    by_cases hc : c = NUL
    · simp [cstr, hc]
    · simp [cstr, hc, ih]

theorem cstr_writeCStr (buf s : List Char) : cstr (writeCStr buf s) = cstr s := by
  unfold writeCStr
  exact cstr_append_NUL s _

theorem NUL_not_mem_cstr (s : List Char) : NUL ∉ cstr s := by
  induction s with
  | nil => simp [cstr]
  | cons c cs ih =>
    by_cases hc : c = NUL
    · simp [cstr, hc]
    · simp only [cstr, hc, if_false, List.mem_cons, not_or]
      exact ⟨fun e => hc e.symm, ih⟩

theorem strstrFrom_isSome (needle hay : List Char) :
    (strstrFrom needle hay).isSome = true ↔ needle <:+: hay := by
  induction hay with
  | nil =>
    by_cases hn : needle = []
    · simp [strstrFrom, hn]
    · simp [strstrFrom, hn]
  | cons c hs ih =>
    unfold strstrFrom
    by_cases hp : needle.isPrefixOf (c :: hs) = true
    · rw [if_pos hp]
      simp only [Option.isSome_some, true_iff]
      exact (List.isPrefixOf_iff_prefix.mp hp).isInfix
    · rw [if_neg hp, ih, List.infix_cons_iff]
      constructor
      · exact fun h => Or.inr h
      · rintro (h | h)
        · exact absurd (List.isPrefixOf_iff_prefix.mpr h) hp
        · exact h

theorem strstr_isSome (hay needle : List Char) (hh : NUL ∉ hay) (hn : NUL ∉ needle)
    (buf : List Char) :
    (strstr (writeCStr buf hay) needle).isSome = true ↔ needle <:+: hay := by
  unfold strstr
  rw [cstr_writeCStr, cstr_eq_self hh, cstr_eq_self hn]
  exact strstrFrom_isSome needle hay

theorem toNat_eq_zero {c : Char} (h : c.toNat = 0) : c = NUL := by
  have := Char.ofNat_toNat c
  rw [h] at this
  exact this.symm

theorem strcmpFrom_eq_zero (a b : List Char) (ha : NUL ∉ a) (hb : NUL ∉ b) :
    strcmpFrom a b = 0 ↔ a = b := by
  induction a generalizing b with
  | nil =>
    cases b with
    | nil => simp [strcmpFrom]
    | cons y ys =>
      simp only [List.mem_cons, not_or] at hb
      have : y.toNat ≠ 0 := fun e => hb.1 (toNat_eq_zero e).symm
      simp [strcmpFrom, this]
  | cons x xs ih =>
    simp only [List.mem_cons, not_or] at ha
    have hx : x.toNat ≠ 0 := fun e => ha.1 (toNat_eq_zero e).symm
    cases b with
    | nil => simp [strcmpFrom, hx]
    | cons y ys =>
      simp only [List.mem_cons, not_or] at hb
      by_cases hxy : x = y
      · simp [strcmpFrom, hxy, ih ys ha.2 hb.2]
      · have hne : (x.toNat : Int) - (y.toNat : Int) ≠ 0 := by
          intro e
          have e2 : x.toNat = y.toNat := by omega
          apply hxy
          rw [← Char.ofNat_toNat x, ← Char.ofNat_toNat y, e2]
        simp [strcmpFrom, hxy, hne]

theorem strcmp_eq_zero (buf v lit : List Char) (hv : NUL ∉ v) (hl : NUL ∉ lit) :
    strcmp (writeCStr buf v) lit = 0 ↔ v = lit := by
  unfold strcmp
  rw [cstr_writeCStr, cstr_eq_self hv, cstr_eq_self hl]
  exact strcmpFrom_eq_zero v lit hv hl

theorem validProp_some {v : List Char} (h : validProp (some v) = true) : NUL ∉ v := by
  simp [validProp] at h
  exact h.1

/-! ## Detectors 1 and 2 -/

theorem checkSuBinaryLoop_ret (st : SystemState) (paths : List String) :
    (checkSuBinaryLoop st paths).ret = true ↔ ∃ p ∈ paths, st.access p = 0 := by
  induction paths with
  | nil => simp [checkSuBinaryLoop]
  | cons p ps ih =>
    unfold checkSuBinaryLoop
    by_cases h : st.access p = 0
    · simp [h]
    · simp [h, ih]

theorem checkSuBinaryLoop_calls (st : SystemState) (pre : List String) (p : String)
    (post : List String) (h : ∀ q ∈ pre, st.access q ≠ 0) :
    (pre ++ [p]).map Event.access <+: (checkSuBinaryLoop st (pre ++ p :: post)).calls := by
  induction pre with
  | nil =>
    simp only [List.nil_append, List.map_cons, List.map_nil]
    unfold checkSuBinaryLoop
    by_cases hp : st.access p = 0
    · simp [hp]
    · simp only [hp, if_false]
      exact ⟨_, rfl⟩
  | cons q qs ih =>
    have hq : st.access q ≠ 0 := h q (List.mem_cons_self _ _)
    have ih2 := ih (fun x hx => h x (List.mem_cons_of_mem _ hx))
    simp only [List.cons_append, List.map_cons]
    unfold checkSuBinaryLoop
    simp only [hq, if_false]
    obtain ⟨t, ht⟩ := ih2
    exact ⟨t, by simp only [List.cons_append, ← ht, List.map_append, List.map_cons, List.map_nil]⟩

theorem checkMagiskFilesLoop_ret (st : SystemState) (paths : List String) :
    (checkMagiskFilesLoop st paths).ret = true ↔ ∃ p ∈ paths, st.stat p = 0 := by
  induction paths with
  | nil => simp [checkMagiskFilesLoop]
  | cons p ps ih =>
    unfold checkMagiskFilesLoop
    by_cases h : st.stat p = 0
    · simp [h]
    · simp [h, ih]

theorem checkMagiskFilesLoop_calls (st : SystemState) (pre : List String) (p : String)
    (post : List String) (h : ∀ q ∈ pre, st.stat q ≠ 0) :
    (pre ++ [p]).map Event.stat <+: (checkMagiskFilesLoop st (pre ++ p :: post)).calls := by
  induction pre with
  | nil =>
    simp only [List.nil_append, List.map_cons, List.map_nil]
    unfold checkMagiskFilesLoop
    by_cases hp : st.stat p = 0
    · simp [hp]
    · simp only [hp, if_false]
      exact ⟨_, rfl⟩
  | cons q qs ih =>
    have hq : st.stat q ≠ 0 := h q (List.mem_cons_self _ _)
    have ih2 := ih (fun x hx => h x (List.mem_cons_of_mem _ hx))
    simp only [List.cons_append, List.map_cons]
    unfold checkMagiskFilesLoop
    simp only [hq, if_false]
    obtain ⟨t, ht⟩ := ih2
    exact ⟨t, by simp only [List.cons_append, ← ht, List.map_append, List.map_cons, List.map_nil]⟩

/-- C2: each of the two path scans (`checkSuBinary` over its 13 paths with
`access`, `checkMagiskFiles` over its 8 paths with `stat`) returns true exactly
when the oracle answers 0 for at least one path of its list; a probe with any
other answer counts as not found and the scan goes on: every path up to the
first path whose earlier paths all failed is probed, in list order. -/
theorem path_scans_true_iff_some_path_exists (st : SystemState) :
    suPaths.length = 13 ∧ magiskPaths.length = 8 ∧
    ((checkSuBinary st).ret = true ↔ ∃ p ∈ suPaths, st.access p = 0) ∧
    ((checkMagiskFiles st).ret = true ↔ ∃ p ∈ magiskPaths, st.stat p = 0) ∧
    (∀ pre p post, suPaths = pre ++ p :: post → (∀ q ∈ pre, st.access q ≠ 0) →
      (pre ++ [p]).map Event.access <+: (checkSuBinary st).calls) ∧
    (∀ pre p post, magiskPaths = pre ++ p :: post → (∀ q ∈ pre, st.stat q ≠ 0) →
      (pre ++ [p]).map Event.stat <+: (checkMagiskFiles st).calls) := by
  refine ⟨rfl, rfl, checkSuBinaryLoop_ret st suPaths, checkMagiskFilesLoop_ret st magiskPaths,
    ?_, ?_⟩
  · intro pre p post e h
    unfold checkSuBinary
    rw [e]
    exact checkSuBinaryLoop_calls st pre p post h
  · intro pre p post e h
    unfold checkMagiskFiles
    rw [e]
    exact checkMagiskFilesLoop_calls st pre p post h

/-! ## Detectors 3 and 4 -/

theorem checkBuildTags_ret (st : SystemState)
    (h : validProp (st.property "ro.build.tags") = true) :
    (checkBuildTags st).ret = true ↔
      ∃ v, st.property "ro.build.tags" = some v ∧ "test-keys".toList <:+: v := by
  have hlit : NUL ∉ "test-keys".toList := by decide
  unfold checkBuildTags system_property_get
  cases hv : st.property "ro.build.tags" with
  | none =>
    simp only [false_and, exists_false, iff_false, reduceCtorEq]
    rw [strstr_isSome [] _ (by simp) hlit]
    decide
  | some v =>
    rw [hv] at h
    simp only [Option.some.injEq, exists_eq_left']
    exact strstr_isSome v _ (validProp_some h) hlit _

/-- C4: `checkBuildTags` returns true exactly when the value of
`ro.build.tags` contains `test-keys` as a substring: `release-keys` gives
false, `test-keys` gives true, `dev-keys,test-keys` gives true, and an empty
or unset property gives false. -/
theorem checkBuildTags_true_iff_contains_test_keys (st : SystemState)
    (h : validProp (st.property "ro.build.tags") = true) :
    ((checkBuildTags st).ret = true ↔
      ∃ v, st.property "ro.build.tags" = some v ∧ "test-keys".toList <:+: v) ∧
    (st.property "ro.build.tags" = some "release-keys".toList →
      (checkBuildTags st).ret = false) ∧
    (st.property "ro.build.tags" = some "test-keys".toList →
      (checkBuildTags st).ret = true) ∧
    (st.property "ro.build.tags" = some "dev-keys,test-keys".toList →
      (checkBuildTags st).ret = true) ∧
    (st.property "ro.build.tags" = some [] → (checkBuildTags st).ret = false) ∧
    (st.property "ro.build.tags" = none → (checkBuildTags st).ret = false) := by
  have key := checkBuildTags_ret st h
  refine ⟨key, ?_, ?_, ?_, ?_, ?_⟩
  · intro e
    rw [← Bool.not_eq_true, key, e]
    simp only [Option.some.injEq, exists_eq_left']
    decide
  · intro e
    rw [key, e]
    exact ⟨_, rfl, by decide⟩
  · intro e
    rw [key, e]
    exact ⟨_, rfl, by decide⟩
  · intro e
    rw [← Bool.not_eq_true, key, e]
    simp only [Option.some.injEq, exists_eq_left']
    decide
  · intro e
    rw [← Bool.not_eq_true, key, e]
    simp

/-- Witness for C4: the clean device, whose build tags are `release-keys`. -/
theorem checkBuildTags_true_iff_contains_test_keys_witness :
    validProp (cleanDevice.property "ro.build.tags") = true ∧
    (((checkBuildTags cleanDevice).ret = true ↔
      ∃ v, cleanDevice.property "ro.build.tags" = some v ∧ "test-keys".toList <:+: v) ∧
    (cleanDevice.property "ro.build.tags" = some "release-keys".toList →
      (checkBuildTags cleanDevice).ret = false) ∧
    (cleanDevice.property "ro.build.tags" = some "test-keys".toList →
      (checkBuildTags cleanDevice).ret = true) ∧
    (cleanDevice.property "ro.build.tags" = some "dev-keys,test-keys".toList →
      (checkBuildTags cleanDevice).ret = true) ∧
    (cleanDevice.property "ro.build.tags" = some [] →
      (checkBuildTags cleanDevice).ret = false) ∧
    (cleanDevice.property "ro.build.tags" = none →
      (checkBuildTags cleanDevice).ret = false)) :=
  ⟨by decide, checkBuildTags_true_iff_contains_test_keys cleanDevice (by decide)⟩

/-- C3: `checkSystemProperties` returns true exactly when `ro.debuggable` is
the string `1` or `ro.secure` is the string `0`; every other pair of values,
unset properties included, gives false, and an unset property leaves the test
of the other one in force. -/
theorem checkSystemProperties_true_iff (st : SystemState)
    (hd : validProp (st.property "ro.debuggable") = true)
    (hs : validProp (st.property "ro.secure") = true) :
    ((checkSystemProperties st).ret = true ↔
      st.property "ro.debuggable" = some "1".toList ∨
      st.property "ro.secure" = some "0".toList) ∧
    (st.property "ro.debuggable" = none → st.property "ro.secure" = none →
      (checkSystemProperties st).ret = false) ∧
    (st.property "ro.debuggable" = none →
      ((checkSystemProperties st).ret = true ↔ st.property "ro.secure" = some "0".toList)) ∧
    (st.property "ro.secure" = none →
      ((checkSystemProperties st).ret = true ↔
        st.property "ro.debuggable" = some "1".toList)) := by
  have h1 : NUL ∉ "1".toList := by decide
  have h0 : NUL ∉ "0".toList := by decide
  have key : (checkSystemProperties st).ret = true ↔
      st.property "ro.debuggable" = some "1".toList ∨
      st.property "ro.secure" = some "0".toList := by
    unfold checkSystemProperties system_property_get
    simp only [Bool.or_eq_true, decide_eq_true_eq]
    apply or_congr
    · cases hv : st.property "ro.debuggable" with
      | none =>
        simp only [reduceCtorEq, iff_false]
        rw [strcmp_eq_zero _ [] _ (by simp) h1]
        decide
      | some v =>
        rw [hv] at hd
        rw [strcmp_eq_zero _ v _ (validProp_some hd) h1]
        simp
    · cases hv : st.property "ro.secure" with
      | none =>
        simp only [reduceCtorEq, iff_false]
        rw [strcmp_eq_zero _ [] _ (by simp) h0]
        decide
      | some v =>
        rw [hv] at hs
        rw [strcmp_eq_zero _ v _ (validProp_some hs) h0]
        simp
  refine ⟨key, ?_, ?_, ?_⟩
  · intro e1 e2
    rw [← Bool.not_eq_true, key, e1, e2]
    simp
  · intro e1
    rw [key, e1]
    simp
  · intro e2
    rw [key, e2]
    simp

/-- Witness for C3: the clean device (`ro.debuggable=0`, `ro.secure=1`). -/
theorem checkSystemProperties_true_iff_witness :
    validProp (cleanDevice.property "ro.debuggable") = true ∧
    validProp (cleanDevice.property "ro.secure") = true ∧
    (((checkSystemProperties cleanDevice).ret = true ↔
      cleanDevice.property "ro.debuggable" = some "1".toList ∨
      cleanDevice.property "ro.secure" = some "0".toList) ∧
    (cleanDevice.property "ro.debuggable" = none → cleanDevice.property "ro.secure" = none →
      (checkSystemProperties cleanDevice).ret = false) ∧
    (cleanDevice.property "ro.debuggable" = none →
      ((checkSystemProperties cleanDevice).ret = true ↔
        cleanDevice.property "ro.secure" = some "0".toList)) ∧
    (cleanDevice.property "ro.secure" = none →
      ((checkSystemProperties cleanDevice).ret = true ↔
        cleanDevice.property "ro.debuggable" = some "1".toList))) :=
  ⟨by decide, by decide, checkSystemProperties_true_iff cleanDevice (by decide) (by decide)⟩

/-! ## Reading lines -/

theorem fgetsRead_short (k : Nat) (l r : List Char) (hl : '\n' ∉ l) (hk : l.length < k) :
    fgetsRead k (l ++ '\n' :: r) = (l ++ ['\n'], r, false) := by
  induction l generalizing k with
  | nil =>
    cases k with
    | zero => exact absurd hk (Nat.lt_irrefl _)
    | succ k => simp [fgetsRead]
  | cons c cs ih =>
    simp only [List.mem_cons, not_or] at hl
    have hc : c ≠ '\n' := fun e => hl.1 e.symm
    cases k with
    | zero => exact absurd hk (Nat.not_lt_zero _)
    | succ k =>
      have hk2 : cs.length < k := by simpa using hk
      simp [fgetsRead, hc, ih k hl.2 hk2]

theorem fgetsRead_long (k : Nat) (l r : List Char) (hl : '\n' ∉ l) (hk : k ≤ l.length) :
    fgetsRead k (l ++ r) = (l.take k, l.drop k ++ r, false) := by
  induction l generalizing k with
  | nil =>
    have : k = 0 := by simpa using hk
    subst this
    simp [fgetsRead]
  | cons c cs ih =>
    simp only [List.mem_cons, not_or] at hl
    have hc : c ≠ '\n' := fun e => hl.1 e.symm
    cases k with
    | zero => simp [fgetsRead]
    | succ k =>
      have hk2 : k ≤ cs.length := by simpa using hk
      simp [fgetsRead, hc, ih k hl.2 hk2]

theorem fgetsRead_length (k : Nat) (s : List Char) :
    (fgetsRead k s).1.length + (fgetsRead k s).2.1.length = s.length := by
  induction s generalizing k with
  | nil => cases k <;> simp [fgetsRead]
  | cons c cs ih =>
    cases k with
    | zero => simp [fgetsRead]
    | succ k =>
      by_cases hc : c = '\n'
      · simp [fgetsRead, hc]; omega
      · have := ih k
        simp [fgetsRead, hc]; omega

theorem fgetsRead_nil_of_succ (k : Nat) (s : List Char)
    (h : (fgetsRead (k + 1) s).1 = []) : (fgetsRead (k + 1) s).2.2 = true := by
  cases s with
  | nil => simp [fgetsRead]
  | cons c cs =>
    by_cases hc : c = '\n'
    · simp [fgetsRead, hc] at h
    · simp [fgetsRead, hc] at h

theorem fgets_nil (buf : List Char) (k : Nat) (f : Bool) :
    fgets buf (k + 2) ⟨[], f⟩ = none := by
  simp [fgets, fgetsRead]

theorem fgets_some_length (buf : List Char) (k : Nat) (fp : FILE) (b : List Char) (fp' : FILE)
    (h : fgets buf (k + 2) fp = some (b, fp')) : fp'.data.length < fp.data.length := by
  unfold fgets at h
  have hk : k + 2 - 1 = k + 1 := rfl
  rw [hk] at h
  by_cases hc : ((fgetsRead (k + 1) fp.data).2.2 &&
      (fp.fails || (fgetsRead (k + 1) fp.data).1.isEmpty)) = true
  · rw [if_pos hc] at h
    exact absurd h (by simp)
  · rw [if_neg hc] at h
    simp only [Option.some.injEq, Prod.mk.injEq] at h
    have hlen := fgetsRead_length (k + 1) fp.data
    have hne : (fgetsRead (k + 1) fp.data).1 ≠ [] := by
      intro e
      apply hc
      rw [fgetsRead_nil_of_succ k fp.data e, e]
      simp
    have hpos : 0 < (fgetsRead (k + 1) fp.data).1.length := List.length_pos.mpr hne
    rw [← h.2]
    simp only
    omega

theorem fgets_line_short (buf : List Char) (cap : Nat) (l r : List Char) (f : Bool)
    (hl : '\n' ∉ l) (hk : l.length < cap) :
    fgets buf (cap + 1) ⟨l ++ '\n' :: r, f⟩ = some (writeCStr buf (l ++ ['\n']), ⟨r, f⟩) := by
  simp [fgets, fgetsRead_short cap l r hl hk]

theorem fgets_line_long (buf : List Char) (cap : Nat) (l r : List Char) (f : Bool)
    (hl : '\n' ∉ l) (hk : cap ≤ l.length) :
    fgets buf (cap + 1) ⟨l ++ r, f⟩ = some (writeCStr buf (l.take cap), ⟨l.drop cap ++ r, f⟩) := by
  simp [fgets, fgetsRead_long cap l r hl hk]

/-- With one iteration more than there are bytes, the loop ends, and its calls
are a run of `fgets` followed by the close call exactly when it found a match. -/
theorem fgetsLoop_total (k : Nat) (found : List Char → Bool) (close : Event) :
    ∀ (fuel : Nat) (buf : List Char) (fp : FILE), fp.data.length < fuel →
      ∃ r n, fgetsLoop (k + 2) found close fuel buf fp = some r ∧
        r.calls = List.replicate (n + 1) Event.fgets ++ (if r.ret then [close] else []) := by
  intro fuel
  induction fuel with
  | zero => intro buf fp h; exact absurd h (Nat.not_lt_zero _)
  | succ fuel ih =>
    intro buf fp h
    unfold fgetsLoop
    cases hg : fgets buf (k + 2) fp with
    | none => exact ⟨_, 0, rfl, by simp⟩
    | some p =>
      obtain ⟨b, fp'⟩ := p
      have hlen := fgets_some_length buf k fp b fp' hg
      simp only
      by_cases hf : found b = true
      · rw [if_pos hf]
        exact ⟨_, 0, rfl, by simp⟩
      · rw [if_neg hf]
        obtain ⟨r, n, hr, hcalls⟩ := ih b fp' (by omega)
        rw [hr]
        refine ⟨_, n + 1, rfl, ?_⟩
        simp only [hcalls, List.replicate_succ, List.cons_append]

theorem tableText_length_cons (l : List Char) (ls : List (List Char)) :
    (tableText (l :: ls)).length = l.length + 1 + (tableText ls).length := by
  simp [tableText]; omega

theorem piece_zero_short (cap : Nat) (l : List Char) (h : l.length < cap) :
    piece cap l 0 = l ++ ['\n'] := by
  unfold piece
  simp only [Nat.zero_mul, List.drop_zero]
  apply List.take_of_length_le
  simp; omega

theorem piece_succ_short (cap : Nat) (l : List Char) (i : Nat) (h : l.length < cap) :
    piece cap l (i + 1) = [] := by
  unfold piece
  have : (l ++ ['\n']).drop ((i + 1) * cap) = [] := by
    apply List.drop_of_length_le
    have : cap ≤ (i + 1) * cap := Nat.le_mul_of_pos_left cap (Nat.succ_pos i)
    simp; omega
  rw [this]; simp

theorem piece_zero_long (cap : Nat) (l : List Char) (h : cap ≤ l.length) :
    piece cap l 0 = l.take cap := by
  unfold piece
  simp only [Nat.zero_mul, List.drop_zero]
  exact List.take_append_of_le_length h

theorem piece_succ_long (cap : Nat) (l : List Char) (i : Nat) (h : cap ≤ l.length) :
    piece cap l (i + 1) = piece cap (l.drop cap) i := by
  unfold piece
  have e : (i + 1) * cap = cap + i * cap := by rw [Nat.succ_mul, Nat.add_comm]
  rw [e, ← List.drop_drop, List.drop_append_of_le_length h]

/-- The loop over a text of newline-terminated lines: it ends, and it returns
true exactly when some piece of some line, as read into a buffer of `cap + 1`
bytes, passes the test. -/
theorem fgetsLoop_lines (cap : Nat) (hcap : 0 < cap) (found : List Char → Bool)
    (foundText : List Char → Prop) (close : Event)
    (hfound : ∀ buf p, NUL ∉ p → (found (writeCStr buf p) = true ↔ foundText p))
    (hnil : ¬ foundText []) :
    ∀ (fuel : Nat) (lines : List (List Char)) (buf : List Char) (f : Bool),
      (∀ l ∈ lines, '\n' ∉ l ∧ NUL ∉ l) → (tableText lines).length < fuel →
      ∃ r, fgetsLoop (cap + 1) found close fuel buf ⟨tableText lines, f⟩ = some r ∧
        (r.ret = true ↔ ∃ l ∈ lines, ∃ i, foundText (piece cap l i)) := by
  obtain ⟨k, rfl⟩ : ∃ k, cap = k + 1 := ⟨cap - 1, by omega⟩
  intro fuel
  induction fuel with
  | zero => intro lines buf f _ h; exact absurd h (Nat.not_lt_zero _)
  | succ fuel ih =>
    intro lines buf f hlines hfuel
    cases lines with
    | nil =>
      unfold fgetsLoop
      simp only [tableText]
      rw [fgets_nil]
      exact ⟨_, rfl, by simp⟩
    | cons l ls =>
      have hl := hlines l (List.mem_cons_self _ _)
      have hls : ∀ x ∈ ls, '\n' ∉ x ∧ NUL ∉ x :=
        fun x hx => hlines x (List.mem_cons_of_mem _ hx)
      rw [tableText_length_cons] at hfuel
      by_cases hshort : l.length < k + 1
      · -- the line and its newline fit the buffer
        have hnul : NUL ∉ l ++ ['\n'] := by
          simp only [List.mem_append, List.mem_singleton, not_or]
          exact ⟨hl.2, by decide⟩
        unfold fgetsLoop
        simp only [tableText]
        rw [fgets_line_short buf (k + 1) l _ f hl.1 hshort]
        simp only
        by_cases hf : found (writeCStr buf (l ++ ['\n'])) = true
        · rw [if_pos hf]
          refine ⟨_, rfl, ?_⟩
          simp only [true_iff]
          refine ⟨l, List.mem_cons_self _ _, 0, ?_⟩
          rw [piece_zero_short _ _ hshort]
          exact (hfound _ _ hnul).mp hf
        · rw [if_neg hf]
          obtain ⟨r, hr, hiff⟩ := ih ls (writeCStr buf (l ++ ['\n'])) f hls (by omega)
          rw [hr]
          refine ⟨_, rfl, ?_⟩
          simp only
          rw [hiff]
          constructor
          · rintro ⟨x, hx, i, hi⟩
            exact ⟨x, List.mem_cons_of_mem _ hx, i, hi⟩
          · rintro ⟨x, hx, i, hi⟩
            rcases List.mem_cons.mp hx with rfl | hx
            · exfalso
              cases i with
              | zero =>
                rw [piece_zero_short _ _ hshort] at hi
                exact hf ((hfound _ _ hnul).mpr hi)
              | succ i =>
                rw [piece_succ_short _ _ _ hshort] at hi
                exact hnil hi
            · exact ⟨x, hx, i, hi⟩
      · -- the line is cut: the buffer takes its first `cap` characters
        have hlong : k + 1 ≤ l.length := by omega
        have hnul : NUL ∉ l.take (k + 1) := fun h => hl.2 (List.mem_of_mem_take h)
        have hdrop : '\n' ∉ l.drop (k + 1) ∧ NUL ∉ l.drop (k + 1) :=
          ⟨fun h => hl.1 (List.mem_of_mem_drop h), fun h => hl.2 (List.mem_of_mem_drop h)⟩
        have hrest : ∀ x ∈ l.drop (k + 1) :: ls, '\n' ∉ x ∧ NUL ∉ x := by
          intro x hx
          rcases List.mem_cons.mp hx with rfl | hx
          · exact hdrop
          · exact hls x hx
        have hlen : (tableText (l.drop (k + 1) :: ls)).length < fuel := by
          rw [tableText_length_cons, List.length_drop]; omega
        unfold fgetsLoop
        simp only [tableText]
        rw [fgets_line_long buf (k + 1) l _ f hl.1 hlong]
        simp only
        by_cases hf : found (writeCStr buf (l.take (k + 1))) = true
        · rw [if_pos hf]
          refine ⟨_, rfl, ?_⟩
          simp only [true_iff]
          refine ⟨l, List.mem_cons_self _ _, 0, ?_⟩
          rw [piece_zero_long _ _ hlong]
          exact (hfound _ _ hnul).mp hf
        · rw [if_neg hf]
          obtain ⟨r, hr, hiff⟩ :=
            ih (l.drop (k + 1) :: ls) (writeCStr buf (l.take (k + 1))) f hrest hlen
          simp only [tableText] at hr
          rw [hr]
          refine ⟨_, rfl, ?_⟩
          simp only
          rw [hiff]
          constructor
          · rintro ⟨x, hx, i, hi⟩
            rcases List.mem_cons.mp hx with rfl | hx
            · refine ⟨l, List.mem_cons_self _ _, i + 1, ?_⟩
              rw [piece_succ_long _ _ _ hlong]
              exact hi
            · exact ⟨x, List.mem_cons_of_mem _ hx, i, hi⟩
          · rintro ⟨x, hx, i, hi⟩
            rcases List.mem_cons.mp hx with rfl | hx
            · cases i with
              | zero =>
                exfalso
                rw [piece_zero_long _ _ hlong] at hi
                exact hf ((hfound _ _ hnul).mpr hi)
              | succ i =>
                rw [piece_succ_long _ _ _ hlong] at hi
                exact ⟨_, List.mem_cons_self _ _, i, hi⟩
            · exact ⟨x, List.mem_cons_of_mem _ hx, i, hi⟩

/-! ## Markers -/

theorem infix_concat_of_not_mem (m l : List Char) (c : Char) (hc : c ∉ m) :
    m <:+: l ++ [c] ↔ m <:+: l := by
  rw [List.infix_concat_iff]
  constructor
  · rintro (h | h)
    · rcases List.eq_nil_or_concat m with rfl | ⟨m', a, rfl⟩
      · exact List.nil_infix
      · exfalso
        obtain ⟨t, ht⟩ := h
        have : t ++ m' ++ [a] = l ++ [c] := by
          rw [← ht]; simp
        have hac := (List.append_inj' this rfl).2
        simp only [List.cons.injEq, and_true] at hac
        exact hc (by simp [hac])
    · exact h
  · exact fun h => Or.inr h

theorem cloakingMarker_iff (buf p : List Char) (hp : NUL ∉ p) :
    cloakingMarker (writeCStr buf p) = true ↔ hasCloakingMarker p := by
  unfold cloakingMarker hasCloakingMarker
  simp only [Bool.or_eq_true]
  rw [strstr_isSome p _ hp (by decide), strstr_isSome p _ hp (by decide),
    strstr_isSome p _ hp (by decide), or_assoc]

theorem not_hasCloakingMarker_nil : ¬ hasCloakingMarker [] := by
  unfold hasCloakingMarker
  decide

theorem hasCloakingMarker_concat (l : List Char) :
    hasCloakingMarker (l ++ ['\n']) ↔ hasCloakingMarker l := by
  unfold hasCloakingMarker
  rw [infix_concat_of_not_mem _ l _ (by decide), infix_concat_of_not_mem _ l _ (by decide),
    infix_concat_of_not_mem _ l _ (by decide)]

theorem packageMarker_iff (buf p : List Char) (hp : NUL ∉ p) :
    packageMarker (writeCStr buf p) = true ↔ hasPackageMarker p := by
  unfold packageMarker hasPackageMarker
  exact strstr_isSome p _ hp (by decide) buf

theorem not_hasPackageMarker_nil : ¬ hasPackageMarker [] := by
  unfold hasPackageMarker
  decide

theorem hasPackageMarker_concat (l : List Char) :
    hasPackageMarker (l ++ ['\n']) ↔ hasPackageMarker l := by
  unfold hasPackageMarker
  exact infix_concat_of_not_mem _ l _ (by decide)

/-! ## Detector 5 -/

theorem checkRootCloaking_closed (st : SystemState) (mounts : FILE)
    (hopen : st.fopen "/proc/self/mounts" = some mounts) :
    ∃ r n, checkRootCloaking st = some r ∧
      r.calls = Event.fopen "/proc/self/mounts" ::
        (List.replicate (n + 1) Event.fgets ++ [Event.fclose]) := by
  obtain ⟨r, n, hr, hcalls⟩ := fgetsLoop_total 1022 cloakingMarker Event.fclose
    (mounts.data.length + 1) (st.uninit "line") mounts (Nat.lt_succ_self _)
  unfold checkRootCloaking
  rw [hopen]
  simp only
  rw [hr]
  simp only
  by_cases hret : r.ret = true
  · rw [if_pos hret]
    refine ⟨_, n, rfl, ?_⟩
    simp only [hcalls, hret, if_true]
  · rw [if_neg hret]
    refine ⟨_, n, rfl, ?_⟩
    simp [hcalls, hret]

theorem checkRootCloaking_unopened (st : SystemState)
    (hopen : st.fopen "/proc/self/mounts" = none) :
    checkRootCloaking st = some ⟨false, [Event.fopen "/proc/self/mounts"]⟩ := by
  unfold checkRootCloaking
  rw [hopen]

theorem checkRootCloaking_total (st : SystemState) : ∃ r, checkRootCloaking st = some r := by
  cases hopen : st.fopen "/proc/self/mounts" with
  | none => exact ⟨_, checkRootCloaking_unopened st hopen⟩
  | some mounts =>
    obtain ⟨r, _, hr, _⟩ := checkRootCloaking_closed st mounts hopen
    exact ⟨r, hr⟩

theorem checkRootCloaking_pieces (st : SystemState) (lines : List (List Char)) (f : Bool)
    (hopen : st.fopen "/proc/self/mounts" = some ⟨tableText lines, f⟩)
    (hlines : ∀ l ∈ lines, '\n' ∉ l ∧ NUL ∉ l) :
    ∃ r, checkRootCloaking st = some r ∧
      (r.ret = true ↔ ∃ l ∈ lines, ∃ i, hasCloakingMarker (piece 1023 l i)) := by
  obtain ⟨r, hr, hiff⟩ := fgetsLoop_lines 1023 (by decide) cloakingMarker hasCloakingMarker
    Event.fclose cloakingMarker_iff not_hasCloakingMarker_nil
    ((tableText lines).length + 1) lines (st.uninit "line") f hlines (Nat.lt_succ_self _)
  unfold checkRootCloaking
  rw [hopen]
  simp only
  rw [hr]
  simp only
  by_cases hret : r.ret = true
  · rw [if_pos hret]
    exact ⟨_, rfl, by simpa [hret] using hiff⟩
  · rw [if_neg hret]
    refine ⟨_, rfl, ?_⟩
    rw [← hiff]
    simp [hret]

theorem exists_piece_short (cap : Nat) (l : List Char) (h : l.length < cap)
    (P : List Char → Prop) (hnil : ¬ P []) :
    (∃ i, P (piece cap l i)) ↔ P (l ++ ['\n']) := by
  constructor
  · rintro ⟨i, hi⟩
    cases i with
    | zero => rwa [piece_zero_short cap l h] at hi
    | succ i =>
      rw [piece_succ_short cap l i h] at hi
      exact absurd hi hnil
  · intro hp
    exact ⟨0, by rwa [piece_zero_short cap l h]⟩

/-- C5, amended: for a mount table that can be opened and whose lines each fit
the line buffer together with their newline (fewer than 1023 characters),
`checkRootCloaking` returns true exactly when at least one line contains
`magisk`, `core/mirror` or `KSU`; when the table cannot be opened it returns
false. -/
theorem checkRootCloaking_true_iff_short_line_has_marker (st : SystemState)
    (lines : List (List Char)) (f : Bool)
    (hlines : ∀ l ∈ lines, '\n' ∉ l ∧ NUL ∉ l ∧ l.length < 1023) :
    (st.fopen "/proc/self/mounts" = some ⟨tableText lines, f⟩ →
      ∃ r, checkRootCloaking st = some r ∧
        (r.ret = true ↔ ∃ l ∈ lines, hasCloakingMarker l)) ∧
    (st.fopen "/proc/self/mounts" = none →
      ∃ r, checkRootCloaking st = some r ∧ r.ret = false) := by
  constructor
  · intro hopen
    obtain ⟨r, hr, hiff⟩ := checkRootCloaking_pieces st lines f hopen
      (fun l hl => ⟨(hlines l hl).1, (hlines l hl).2.1⟩)
    refine ⟨r, hr, ?_⟩
    rw [hiff]
    constructor
    · rintro ⟨l, hl, hi⟩
      rw [exists_piece_short 1023 l (hlines l hl).2.2 _ not_hasCloakingMarker_nil,
        hasCloakingMarker_concat] at hi
      exact ⟨l, hl, hi⟩
    · rintro ⟨l, hl, hm⟩
      refine ⟨l, hl, ?_⟩
      rw [exists_piece_short 1023 l (hlines l hl).2.2 _ not_hasCloakingMarker_nil,
        hasCloakingMarker_concat]
      exact hm
  · intro hopen
    exact ⟨_, checkRootCloaking_unopened st hopen, rfl⟩

/-- Witness for C5: the clean device and its two-line mount table. -/
theorem checkRootCloaking_true_iff_short_line_has_marker_witness :
    (∀ l ∈ cleanMounts, '\n' ∉ l ∧ NUL ∉ l ∧ l.length < 1023) ∧
    ∃ r, checkRootCloaking cleanDevice = some r ∧
      (r.ret = true ↔ ∃ l ∈ cleanMounts, hasCloakingMarker l) :=
  ⟨by decide,
   (checkRootCloaking_true_iff_short_line_has_marker cleanDevice cleanMounts false
      (by decide)).1 rfl⟩

/-- Counterexample to C5 as stated: the only line of the table contains
`magisk`, at characters 1021 to 1026, and `checkRootCloaking` returns false. -/
theorem checkRootCloaking_misses_marker_across_reads :
    hasCloakingMarker straddlingLine ∧
    (mountsDevice [straddlingLine]).fopen "/proc/self/mounts" =
      some ⟨tableText [straddlingLine], false⟩ ∧
    (checkRootCloaking (mountsDevice [straddlingLine])).map Run.ret = some false :=
  ⟨Or.inl (List.suffix_append _ _).isInfix, rfl, by decide⟩

/-- C9, amended: a line longer than the line buffer never makes
`checkRootCloaking` fail; the line and its newline are read in consecutive
pieces of at most 1023 characters, the first being the line cut to 1023
characters, and each piece is matched on its own: the function returns true
exactly when some piece of some line contains a marker. -/
theorem checkRootCloaking_matches_pieces_of_long_lines (st : SystemState)
    (lines : List (List Char)) (f : Bool)
    (hopen : st.fopen "/proc/self/mounts" = some ⟨tableText lines, f⟩)
    (hlines : ∀ l ∈ lines, '\n' ∉ l ∧ NUL ∉ l) :
    (∃ r, checkRootCloaking st = some r ∧
      (r.ret = true ↔ ∃ l ∈ lines, ∃ i, hasCloakingMarker (piece 1023 l i))) ∧
    (∀ l : List Char, 1023 ≤ l.length → piece 1023 l 0 = l.take 1023) ∧
    (∀ (l : List Char) (i : Nat), (piece 1023 l i).length ≤ 1023) := by
  refine ⟨checkRootCloaking_pieces st lines f hopen hlines, ?_, ?_⟩
  · intro l hl
    exact piece_zero_long 1023 l hl
  · intro l i
    unfold piece
    rw [List.length_take]
    exact Nat.min_le_left _ _

/-- Witness for C9: a table whose only line has 1029 characters. -/
theorem checkRootCloaking_matches_pieces_of_long_lines_witness :
    (mountsDevice [overlongLine]).fopen "/proc/self/mounts" =
      some ⟨tableText [overlongLine], false⟩ ∧
    (∀ l ∈ [overlongLine], '\n' ∉ l ∧ NUL ∉ l) ∧
    ((∃ r, checkRootCloaking (mountsDevice [overlongLine]) = some r ∧
      (r.ret = true ↔ ∃ l ∈ [overlongLine], ∃ i, hasCloakingMarker (piece 1023 l i))) ∧
    (∀ l : List Char, 1023 ≤ l.length → piece 1023 l 0 = l.take 1023) ∧
    (∀ (l : List Char) (i : Nat), (piece 1023 l i).length ≤ 1023)) :=
  ⟨rfl, by decide,
   checkRootCloaking_matches_pieces_of_long_lines (mountsDevice [overlongLine])
     [overlongLine] false rfl (by decide)⟩

/-- Counterexample to C9 as stated: the marker lies beyond the first 1023
characters of the only line and `checkRootCloaking` returns true, while on the
table with that line cut down to its first 1023 characters it returns false. -/
theorem checkRootCloaking_matches_beyond_buffer_length :
    overlongLine.length = 1029 ∧
    (checkRootCloaking (mountsDevice [overlongLine])).map Run.ret = some true ∧
    (checkRootCloaking (mountsDevice ([overlongLine].map (List.take 1023)))).map Run.ret =
      some false :=
  ⟨by decide, by decide, by decide⟩

/-- C10: `checkRootCloaking` releases the mount-table handle on every exit
path.  When the open succeeds its calls are the open, then one or more reads,
then a single close as the last call, so nothing is read after the close; when
the open fails the open is its only call and nothing is closed. -/
theorem checkRootCloaking_closes_exactly_once (st : SystemState) :
    ∃ r, checkRootCloaking st = some r ∧
      (st.fopen "/proc/self/mounts" = none →
        r.ret = false ∧ r.calls = [Event.fopen "/proc/self/mounts"]) ∧
      (st.fopen "/proc/self/mounts" ≠ none →
        (∃ n, r.calls = Event.fopen "/proc/self/mounts" ::
          (List.replicate (n + 1) Event.fgets ++ [Event.fclose])) ∧
        r.calls.count Event.fclose = 1 ∧
        r.calls.getLast? = some Event.fclose) := by
  cases hopen : st.fopen "/proc/self/mounts" with
  | none =>
    refine ⟨_, checkRootCloaking_unopened st hopen, fun _ => ⟨rfl, rfl⟩, fun h => absurd rfl h⟩
  | some mounts =>
    obtain ⟨r, n, hr, hcalls⟩ := checkRootCloaking_closed st mounts hopen
    refine ⟨r, hr, fun h => absurd h (by simp), fun _ => ⟨⟨n, hcalls⟩, ?_, ?_⟩⟩
    · rw [hcalls]
      simp [List.count_cons, List.count_replicate]
    · rw [hcalls]
      simp [List.getLast?_cons]

/-! ## Detector 6 -/

theorem popenCommands_replicate_fgets (n : Nat) (rest : List Event) :
    popenCommands (List.replicate n Event.fgets ++ rest) = popenCommands rest := by
  induction n with
  | zero => simp
  | succ n ih =>
    simp only [List.replicate_succ, List.cons_append]
    unfold popenCommands at ih ⊢
    rw [List.filterMap_cons]
    simp [Event.command?]

theorem pmPathCommand_cstr (buf package : List Char) :
    cstr (pmPathCommand buf package) = ("pm path ".toList ++ cstr package).take 255 := by
  unfold pmPathCommand
  rw [cstr_writeCStr]
  apply cstr_eq_self
  intro h
  have h2 := List.mem_of_mem_take h
  rcases List.mem_append.mp h2 with h3 | h3
  · exact absurd h3 (by decide)
  · exact NUL_not_mem_cstr package h3

theorem pmPathCommand_rootApps (buf app : List Char) (happ : app ∈ rootApps) :
    cstr (pmPathCommand buf app) = pmPath app := by
  rw [pmPathCommand_cstr]
  have : ∀ a ∈ rootApps, ("pm path ".toList ++ cstr a).take 255 = pmPath a := by decide
  exact this app happ

theorem checkPackage_launched (st : SystemState) (package : List Char) (fp : FILE)
    (hopen : st.popen (cstr (pmPathCommand (st.uninit "command") package)) = some fp) :
    ∃ r n, checkPackage st package = some r ∧
      r.calls = Event.popen (cstr (pmPathCommand (st.uninit "command") package)) ::
        (List.replicate (n + 1) Event.fgets ++ [Event.pclose]) := by
  obtain ⟨r, n, hr, hcalls⟩ := fgetsLoop_total 254 packageMarker Event.pclose
    (fp.data.length + 1) (st.uninit "output") fp (Nat.lt_succ_self _)
  unfold checkPackage
  simp only
  rw [hopen]
  simp only
  rw [hr]
  simp only
  by_cases hret : r.ret = true
  · rw [if_pos hret]
    refine ⟨_, n, rfl, ?_⟩
    simp only [hcalls, hret, if_true]
  · rw [if_neg hret]
    refine ⟨_, n, rfl, ?_⟩
    simp [hcalls, hret]

theorem checkPackage_not_launched (st : SystemState) (package : List Char)
    (hopen : st.popen (cstr (pmPathCommand (st.uninit "command") package)) = none) :
    checkPackage st package =
      some ⟨false, [Event.popen (cstr (pmPathCommand (st.uninit "command") package))]⟩ := by
  unfold checkPackage
  simp only
  rw [hopen]

/-- Every call of `checkPackage` returns, after exactly one `popen`, whose
command is `pm path ` followed by the identifier, cut to 255 characters. -/
theorem checkPackage_command (st : SystemState) (package : List Char) :
    ∃ r, checkPackage st package = some r ∧
      popenCommands r.calls = [("pm path ".toList ++ cstr package).take 255] := by
  cases hopen : st.popen (cstr (pmPathCommand (st.uninit "command") package)) with
  | none =>
    refine ⟨_, checkPackage_not_launched st package hopen, ?_⟩
    simp [popenCommands, Event.command?, pmPathCommand_cstr]
  | some fp =>
    obtain ⟨r, n, hr, hcalls⟩ := checkPackage_launched st package fp hopen
    refine ⟨r, hr, ?_⟩
    rw [hcalls]
    have h := popenCommands_replicate_fgets (n + 1) [Event.pclose]
    unfold popenCommands at h ⊢
    rw [List.filterMap_cons, h]
    simp [Event.command?, pmPathCommand_cstr]

theorem checkPackage_pieces (st : SystemState) (package : List Char)
    (lines : List (List Char)) (f : Bool)
    (hopen : st.popen (cstr (pmPathCommand (st.uninit "command") package)) =
      some ⟨tableText lines, f⟩)
    (hlines : ∀ l ∈ lines, '\n' ∉ l ∧ NUL ∉ l) :
    ∃ r, checkPackage st package = some r ∧
      (r.ret = true ↔ ∃ l ∈ lines, ∃ i, hasPackageMarker (piece 255 l i)) := by
  obtain ⟨r, hr, hiff⟩ := fgetsLoop_lines 255 (by decide) packageMarker hasPackageMarker
    Event.pclose packageMarker_iff not_hasPackageMarker_nil
    ((tableText lines).length + 1) lines (st.uninit "output") f hlines (Nat.lt_succ_self _)
  unfold checkPackage
  simp only
  rw [hopen]
  simp only
  rw [hr]
  simp only
  by_cases hret : r.ret = true
  · rw [if_pos hret]
    exact ⟨_, rfl, by simpa [hret] using hiff⟩
  · rw [if_neg hret]
    refine ⟨_, rfl, ?_⟩
    rw [← hiff]
    simp [hret]

/-- The query for one of the six identifiers against a package manager `out`. -/
theorem checkPackage_query (st : SystemState) (out : List Char → Option (List (List Char)))
    (app : List Char) (happ : app ∈ rootApps)
    (hq : st.popen (pmPath app) = (out app).map fun ls => FILE.mk (tableText ls) false)
    (hlines : ∀ ls ∈ out app, ∀ l ∈ ls, '\n' ∉ l ∧ NUL ∉ l) :
    ∃ r, checkPackage st app = some r ∧ (r.ret = true ↔ positiveOutput (out app)) ∧
      popenCommands r.calls = [pmPath app] := by
  obtain ⟨r, hr, hcmd⟩ := checkPackage_command st app
  have hc := pmPathCommand_rootApps (st.uninit "command") app happ
  rw [pmPathCommand_cstr] at hc
  rw [hc] at hcmd
  refine ⟨r, hr, ?_, hcmd⟩
  cases ho : out app with
  | none =>
    rw [ho] at hq
    have hn : st.popen (cstr (pmPathCommand (st.uninit "command") app)) = none := by
      rw [pmPathCommand_rootApps _ app happ]; exact hq
    have := checkPackage_not_launched st app hn
    rw [hr] at this
    have hret : r.ret = false := by
      have := Option.some.inj this
      rw [this]
    simp [hret, positiveOutput]
  | some ls =>
    rw [ho] at hq
    have hs : st.popen (cstr (pmPathCommand (st.uninit "command") app)) =
        some ⟨tableText ls, false⟩ := by
      rw [pmPathCommand_rootApps _ app happ]; exact hq
    obtain ⟨r', hr', hiff⟩ := checkPackage_pieces st app ls false hs (hlines ls ho)
    rw [hr] at hr'
    have := Option.some.inj hr'
    subst this
    rw [hiff]
    simp [positiveOutput]

/-- The loop of `checkRootApps` over identifiers whose queries each return:
it stops at the first positive query. -/
theorem checkRootAppsLoop_first_positive (st : SystemState) (pos : List Char → Prop) :
    ∀ apps : List (List Char),
      (∀ app ∈ apps, ∃ r, checkPackage st app = some r ∧ (r.ret = true ↔ pos app) ∧
        popenCommands r.calls = [pmPath app]) →
      ∃ r, checkRootAppsLoop st apps = some r ∧
        (∀ k app, apps[k]? = some app → pos app →
          (∀ j b, j < k → apps[j]? = some b → ¬ pos b) →
          r.ret = true ∧ popenCommands r.calls = (apps.take (k + 1)).map pmPath) ∧
        ((∀ app ∈ apps, ¬ pos app) →
          r.ret = false ∧ popenCommands r.calls = apps.map pmPath) := by
  intro apps
  induction apps with
  | nil =>
    intro _
    refine ⟨_, rfl, ?_, ?_⟩
    · intro k app hk
      simp at hk
    · intro _
      exact ⟨rfl, rfl⟩
  | cons a rest ih =>
    intro h
    obtain ⟨ra, hra, hpos, hcmd⟩ := h a (List.mem_cons_self _ _)
    obtain ⟨rr, hrr, hfirst, hnone⟩ := ih (fun x hx => h x (List.mem_cons_of_mem _ hx))
    unfold checkRootAppsLoop
    rw [hra]
    simp only
    by_cases hret : ra.ret = true
    · rw [if_pos hret]
      refine ⟨_, rfl, ?_, ?_⟩
      · intro k app hk hp hbefore
        cases k with
        | zero =>
          simp only [List.getElem?_cons_zero, Option.some.injEq] at hk
          subst hk
          simp [hcmd]
        | succ k =>
          exact absurd (hpos.mp hret) (hbefore 0 a (Nat.succ_pos k) (by simp))
      · intro hall
        exact absurd (hpos.mp hret) (hall a (List.mem_cons_self _ _))
    · rw [if_neg hret]
      rw [hrr]
      have hneg : ¬ pos a := fun hp => hret (hpos.mpr hp)
      refine ⟨_, rfl, ?_, ?_⟩
      · intro k app hk hp hbefore
        cases k with
        | zero =>
          simp only [List.getElem?_cons_zero, Option.some.injEq] at hk
          subst hk
          exact absurd hp hneg
        | succ k =>
          simp only [List.getElem?_cons_succ] at hk
          have := hfirst k app hk hp (fun j b hj hb =>
            hbefore (j + 1) b (Nat.succ_lt_succ hj) (by simpa using hb))
          refine ⟨this.1, ?_⟩
          simp only [popenCommands, List.filterMap_append, List.take_succ_cons, List.map_cons]
          have h1 : List.filterMap Event.command? ra.calls = [pmPath a] := hcmd
          have h2 : List.filterMap Event.command? rr.calls =
              (rest.take (k + 1)).map pmPath := this.2
          rw [h1, h2]
          rfl
      · intro hall
        have := hnone (fun x hx => hall x (List.mem_cons_of_mem _ hx))
        refine ⟨this.1, ?_⟩
        simp only [popenCommands, List.filterMap_append, List.map_cons]
        have h1 : List.filterMap Event.command? ra.calls = [pmPath a] := hcmd
        have h2 : List.filterMap Event.command? rr.calls = rest.map pmPath := this.2
        rw [h1, h2]
        rfl

theorem checkRootAppsLoop_total (st : SystemState) (apps : List (List Char)) :
    ∃ r, checkRootAppsLoop st apps = some r := by
  induction apps with
  | nil => exact ⟨_, rfl⟩
  | cons a rest ih =>
    obtain ⟨ra, hra, _⟩ := checkPackage_command st a
    obtain ⟨rr, hrr⟩ := ih
    unfold checkRootAppsLoop
    rw [hra]
    simp only
    by_cases hret : ra.ret = true
    · rw [if_pos hret]; exact ⟨_, rfl⟩
    · rw [if_neg hret, hrr]; exact ⟨_, rfl⟩

/-- C6, amended: against every package manager that maps each identifier to a
launch failure or to output lines, `checkRootApps` returns; a query is positive
when some piece of at most 255 characters of a line of its output contains
`package:` (for a line shorter than 255 characters: when the line contains it).
If the identifier at position `k` of the six is the first positive one,
`checkRootApps` returns true and has queried exactly the identifiers up to and
including it, in list order; if none is positive it returns false after
querying all six.  A launch failure is negative for its identifier only. -/
theorem checkRootApps_stops_at_first_positive (st : SystemState)
    (out : List Char → Option (List (List Char)))
    (hq : ∀ app ∈ rootApps,
      st.popen (pmPath app) = (out app).map fun ls => FILE.mk (tableText ls) false)
    (hlines : ∀ app ∈ rootApps, ∀ ls ∈ out app, ∀ l ∈ ls, '\n' ∉ l ∧ NUL ∉ l) :
    rootApps.length = 6 ∧
    (∃ r, checkRootApps st = some r ∧
      (∀ k app, rootApps[k]? = some app → positiveOutput (out app) →
        (∀ j b, j < k → rootApps[j]? = some b → ¬ positiveOutput (out b)) →
        r.ret = true ∧ popenCommands r.calls = (rootApps.take (k + 1)).map pmPath) ∧
      ((∀ app ∈ rootApps, ¬ positiveOutput (out app)) →
        r.ret = false ∧ popenCommands r.calls = rootApps.map pmPath)) ∧
    ¬ positiveOutput none ∧
    (∀ l : List Char, l.length < 255 →
      ((∃ i, hasPackageMarker (piece 255 l i)) ↔ hasPackageMarker l)) := by
  refine ⟨rfl, ?_, ?_, ?_⟩
  · exact checkRootAppsLoop_first_positive st (fun app => positiveOutput (out app)) rootApps
      (fun app happ => checkPackage_query st out app happ (hq app happ) (hlines app happ))
  · simp [positiveOutput]
  · intro l hl
    rw [exists_piece_short 255 l hl _ not_hasPackageMarker_nil, hasPackageMarker_concat]

/-- Witness for C6: the launch fails for the first identifier and the third
identifier is reported as installed. -/
theorem checkRootApps_stops_at_first_positive_witness :
    (∀ app ∈ rootApps, (queryDevice thirdInstalled).popen (pmPath app) =
      (thirdInstalled app).map fun ls => FILE.mk (tableText ls) false) ∧
    (∀ app ∈ rootApps, ∀ ls ∈ thirdInstalled app, ∀ l ∈ ls, '\n' ∉ l ∧ NUL ∉ l) ∧
    (rootApps.length = 6 ∧
    (∃ r, checkRootApps (queryDevice thirdInstalled) = some r ∧
      (∀ k app, rootApps[k]? = some app → positiveOutput (thirdInstalled app) →
        (∀ j b, j < k → rootApps[j]? = some b → ¬ positiveOutput (thirdInstalled b)) →
        r.ret = true ∧ popenCommands r.calls = (rootApps.take (k + 1)).map pmPath) ∧
      ((∀ app ∈ rootApps, ¬ positiveOutput (thirdInstalled app)) →
        r.ret = false ∧ popenCommands r.calls = rootApps.map pmPath)) ∧
    ¬ positiveOutput none ∧
    (∀ l : List Char, l.length < 255 →
      ((∃ i, hasPackageMarker (piece 255 l i)) ↔ hasPackageMarker l))) :=
  ⟨by decide, by decide,
   checkRootApps_stops_at_first_positive (queryDevice thirdInstalled) thirdInstalled
     (by decide) (by decide)⟩

/-- Counterexample to C6 as stated: the output for the first identifier
contains `package:`, yet `checkRootApps` returns false, after querying all six
identifiers. -/
theorem checkRootApps_misses_marker_across_reads :
    (∃ l, straddlingOutput "com.topjohnwu.magisk".toList = some [l] ∧
      "package:".toList <:+: tableText [l]) ∧
    rootApps[0]? = some "com.topjohnwu.magisk".toList ∧
    (checkRootApps (queryDevice straddlingOutput)).map Run.ret = some false ∧
    (checkRootApps (queryDevice straddlingOutput)).map (fun r => popenCommands r.calls) =
      some (rootApps.map pmPath) :=
  ⟨⟨_, rfl, by decide⟩, rfl, by decide, by decide⟩

/-- C8, amended: `checkPackage` passes to `popen` the text `pm path ` followed
by the identifier as it is, cut to 255 characters; nothing is escaped or
quoted.  For the six identifiers of `checkRootApps`, which contain no shell
metacharacter, the command is exactly `pm path <identifier>`. -/
theorem checkPackage_command_is_plain_concatenation (st : SystemState)
    (package : List Char) :
    (∃ r, checkPackage st package = some r ∧
      popenCommands r.calls = [(pmPath (cstr package)).take 255]) ∧
    (∀ app ∈ rootApps, (pmPath (cstr app)).take 255 = pmPath app ∧
      ∀ c ∈ app, shellMeta c = false) := by
  refine ⟨checkPackage_command st package, ?_⟩
  decide

/-- Counterexample to C8 as stated: for the identifier `a;b` the command
passed to `popen` is `pm path a;b`; the shell metacharacter `;` of the
identifier is in it, and no backslash or quote that could escape it. -/
theorem checkPackage_passes_metacharacter_unescaped :
    (checkPackage cleanDevice "a;b".toList).map (fun r => popenCommands r.calls) =
      some ["pm path a;b".toList] ∧
    shellMeta ';' = true ∧
    ';' ∈ "a;b".toList ∧
    (∀ c ∈ "pm path a;b".toList, c ∉ shellEscapes) :=
  ⟨by decide, by decide, by decide, by decide⟩

/-! ## The aggregator -/

theorem checkRootApps_total (st : SystemState) : ∃ r, checkRootApps st = some r :=
  checkRootAppsLoop_total st rootApps

/-- A chain of `||` over six runs: the verdict is the disjunction of the
results, the detectors called are in the fixed order, and a detector is called
exactly when all detectors before it returned false. -/
theorem shortCircuitOr_chain (run : Detector → Option Run) (r1 r2 r3 r4 r5 r6 : Run)
    (h1 : run Detector.checkSuBinary = some r1)
    (h2 : run Detector.checkMagiskFiles = some r2)
    (h3 : run Detector.checkBuildTags = some r3)
    (h4 : run Detector.checkSystemProperties = some r4)
    (h5 : run Detector.checkRootCloaking = some r5)
    (h6 : run Detector.checkRootApps = some r6) :
    ∃ v,
      shortCircuitOr
        (shortCircuitOr
          (shortCircuitOr
            (shortCircuitOr
              (shortCircuitOr
                (firstOperand Detector.checkSuBinary (some r1))
                Detector.checkMagiskFiles (some r2))
              Detector.checkBuildTags (some r3))
            Detector.checkSystemProperties (some r4))
          Detector.checkRootCloaking (some r5))
        Detector.checkRootApps (some r6) = some v ∧
      (v.ret = true ↔ ∃ d ∈ detectorOrder, (run d).map Run.ret = some true) ∧
      v.evaluated.map Prod.fst <+: detectorOrder ∧
      (∀ d, d ∈ v.evaluated.map Prod.fst ↔
        ∀ e ∈ d.before, (run e).map Run.ret = some false) ∧
      (∀ p ∈ v.evaluated, (run p.1).map Run.calls = some p.2) ∧
      (v.ret = false → v.evaluated.map Prod.fst = detectorOrder) ∧
      (v.ret = true → ∃ d, (v.evaluated.map Prod.fst).getLast? = some d ∧
        (run d).map Run.ret = some true) := by
  obtain ⟨b1, c1⟩ := r1
  obtain ⟨b2, c2⟩ := r2
  obtain ⟨b3, c3⟩ := r3
  obtain ⟨b4, c4⟩ := r4
  obtain ⟨b5, c5⟩ := r5
  obtain ⟨b6, c6⟩ := r6
  cases b1
  on_goal 1 => cases b2
  on_goal 1 => cases b3
  on_goal 1 => cases b4
  on_goal 1 => cases b5
  on_goal 1 => cases b6
  all_goals exact ⟨_, rfl,
    by simp [detectorOrder, h1, h2, h3, h4, h5, h6],
    by simp [detectorOrder],
    by intro d; cases d <;>
      simp [detectorOrder, Detector.before, h1, h2, h3, h4, h5, h6],
    by simp [h1, h2, h3, h4, h5, h6],
    by simp [detectorOrder],
    by simp [List.getLast?, h1, h2, h3, h4, h5, h6]⟩

/-- The outcome of `isDeviceRooted` on a state. -/
theorem isDeviceRooted_outcome (st : SystemState) :
    ∃ v, isDeviceRooted st = some v ∧
      (v.ret = true ↔ ∃ d ∈ detectorOrder, Detector.result st d = some true) ∧
      v.evaluated.map Prod.fst <+: detectorOrder ∧
      (∀ d, d ∈ v.evaluated.map Prod.fst ↔
        ∀ e ∈ d.before, Detector.result st e = some false) ∧
      (∀ p ∈ v.evaluated, (p.1.run st).map Run.calls = some p.2) ∧
      (v.ret = false → v.evaluated.map Prod.fst = detectorOrder) ∧
      (v.ret = true → ∃ d, (v.evaluated.map Prod.fst).getLast? = some d ∧
        Detector.result st d = some true) := by
  obtain ⟨r5, h5⟩ := checkRootCloaking_total st
  obtain ⟨r6, h6⟩ := checkRootApps_total st
  have key := shortCircuitOr_chain (Detector.run st) (checkSuBinary st) (checkMagiskFiles st)
    (checkBuildTags st) (checkSystemProperties st) r5 r6 rfl rfl rfl rfl h5 h6
  unfold isDeviceRooted
  rw [h5, h6]
  exact key

/-- C1: `isDeviceRooted` returns, and its verdict is true exactly when at least
one of the six detectors returns true on the same state: the verdict is the
logical OR of the six results.  The clean device gives false; the clean device
with only `/system/bin/su` present gives true. -/
theorem isDeviceRooted_true_iff_some_detector_true (st : SystemState) :
    (∀ d, ∃ b, Detector.result st d = some b) ∧
    (∃ v, isDeviceRooted st = some v ∧
      (v.ret = true ↔
        (checkSuBinary st).ret = true ∨ (checkMagiskFiles st).ret = true ∨
        (checkBuildTags st).ret = true ∨ (checkSystemProperties st).ret = true ∨
        (checkRootCloaking st).map Run.ret = some true ∨
        (checkRootApps st).map Run.ret = some true)) ∧
    (isDeviceRooted cleanDevice).map Verdict.ret = some false ∧
    (isDeviceRooted suDevice).map Verdict.ret = some true := by
  obtain ⟨r5, h5⟩ := checkRootCloaking_total st
  obtain ⟨r6, h6⟩ := checkRootApps_total st
  refine ⟨?_, ?_, by decide, by decide⟩
  · intro d
    cases d <;> simp [Detector.result, Detector.run, h5, h6]
  · obtain ⟨v, hv, hiff, _⟩ := isDeviceRooted_outcome st
    refine ⟨v, hv, ?_⟩
    rw [hiff]
    simp [detectorOrder, Detector.result, Detector.run]

/-- C7: `isDeviceRooted` calls the detectors in the fixed order `checkSuBinary`,
`checkMagiskFiles`, `checkBuildTags`, `checkSystemProperties`,
`checkRootCloaking`, `checkRootApps`: the detectors it calls form a prefix of
that order, and a detector is called if and only if every detector before it
in the order returned false, so the prefix ends at the first detector that
returns true, or is the whole order when none does. -/
theorem isDeviceRooted_calls_prefix_up_to_first_true (st : SystemState) :
    ∃ v, isDeviceRooted st = some v ∧
      v.evaluated.map Prod.fst <+: detectorOrder ∧
      (∀ d, d ∈ v.evaluated.map Prod.fst ↔
        ∀ e ∈ d.before, Detector.result st e = some false) ∧
      (∀ p ∈ v.evaluated, (p.1.run st).map Run.calls = some p.2) ∧
      (v.ret = false → v.evaluated.map Prod.fst = detectorOrder) ∧
      (v.ret = true → ∃ d, (v.evaluated.map Prod.fst).getLast? = some d ∧
        Detector.result st d = some true) := by
  obtain ⟨v, hv, _, hrest⟩ := isDeviceRooted_outcome st
  exact ⟨v, hv, hrest⟩

end RootDetector
